import Mathlib

/-!
Shallow embedding of the lab3 relational store (`src/lab3/database/database.py`):
tables backed by an in-memory row list plus a durable row set, a registry
(`Database`) dispatching insert/select/join/aggregate, nested-loop equi-join and
column aggregation.  Rows are ordered association lists from column name to the
stored string, mirroring Python dicts built by `dict(zip(ATTRS, fields))`.
-/

namespace Lab3

/-- Error taxonomy: one constructor per distinct `ValueError` / `KeyError` /
`TypeError` / `ZeroDivisionError` the source can raise, keyed by its message. -/
inductive DBError where
  /-- Message "Таблица '...' не существует!" -/
  | unknownTable (name : String)
  /-- Message "Таблица ... не содержит поле '...'!" -/
  | unknownColumn (column : String)
  /-- Message "Функция '...' не является агрегатной!" -/
  | unknownFunction (name : String)
  /-- Message "Группа полей ('id', 'department_id') должна быть уникальной!" -/
  | compositeKeyViolation
  /-- Message "Поле 'id' должно быть уникальным!" -/
  | uniqueIdViolation
  /-- Models `int(value)` raising `ValueError` on a non-numeric string. -/
  | parseFailure (value : String)
  /-- Models `row[key]` raising `KeyError` on a missing dict key. -/
  | keyError (key : String)
  /-- Models `table, attr = line.split(".")` raising `ValueError` on a bad unpack. -/
  | badRef (ref : String)
  /-- Models `None.ATTRS` raising `AttributeError` (unreachable after validation). -/
  | attrError (name : String)
  /-- Models `min()` / `max()` raising `ValueError` on an empty sequence. -/
  | emptySeq
  /-- Models `sum(x) / len(x)` raising `ZeroDivisionError` on an empty list. -/
  | zeroDivision
  /-- a call with the wrong argument shape. -/
  | typeError
  deriving DecidableEq

/-- A Python dict from column name to stored string value, as an ordered
association list (keys are unique in every reachable state). -/
abbrev Row := List (String × String)

/-- One decimal digit's value, else `none`. -/
def digitVal (c : Char) : Option Nat :=
  if 48 ≤ c.toNat ∧ c.toNat ≤ 57 then some (c.toNat - 48) else none

/-- Accumulating decimal parse of a digit list. -/
def digitsToNatAux (acc : Nat) : List Char → Option Nat
  | [] => some acc
  | c :: rest =>
    match digitVal c with
    | some d => digitsToNatAux (acc * 10 + d) rest
    | none => none

/-- A nonempty all-digit list as a natural number. -/
def digitsToNat : List Char → Option Nat
  | [] => none
  | l => digitsToNatAux 0 l

/-- Models `int(s)` on an optionally-signed decimal string (kernel-executable model
of Python's `int` for the plain numeric strings this store handles). -/
def pyToInt (s : String) : Option Int :=
  match s.data with
  | '-' :: rest => (digitsToNat rest).map (fun n => -(n : Int))
  | l => (digitsToNat l).map (fun n => (n : Int))

/-- Models `s.upper()` (kernel-executable model of Python's `str.upper` for the
ASCII function names the aggregate dispatch compares against). -/
def pyUpper (s : String) : String :=
  ⟨s.data.map Char.toUpper⟩

/-- The split loop of `pySplit`: accumulate the current field (reversed) and
cut at each separator. -/
def pySplitAux (sep : Char) (cur : List Char) : List Char → List (List Char)
  | [] => [cur.reverse]
  | c :: rest =>
    if c = sep then cur.reverse :: pySplitAux sep [] rest
    else pySplitAux sep (c :: cur) rest

/-- Models `s.split(sep)` for a one-character separator (kernel-executable model of
Python's `str.split`; the source only splits on "," and "."). -/
def pySplit (sep : Char) (s : String) : List String :=
  (pySplitAux sep [] s.data).map (fun l => ⟨l⟩)

/-- Dict lookup as an option: the entry for key `k`, if present. -/
def rowFind (r : Row) (k : String) : Option String :=
  match r with
  | [] => none
  | (k2, v) :: rest => if k2 = k then some v else rowFind rest k

/-- Models `row[k]`: the stored value, or a `KeyError` when `k` is absent. -/
def rowGet (r : Row) (k : String) : Except DBError String :=
  match rowFind r k with
  | some v => .ok v
  | none => .error (.keyError k)

/-- Models `{**a, **b}`: the keys of `a` in order with values overridden by `b` on a
collision, followed by the keys of `b` that are not in `a`, in `b`'s order. -/
def dictMerge (a b : Row) : Row :=
  a.map (fun p =>
    match rowFind b p.1 with
    | some v => (p.1, v)
    | none => p) ++
  b.filter (fun p => (rowFind a p.1).isNone)

/-- The three concrete table classes. -/
inductive TableKind where
  | employee
  | department
  | employeeLeave
  deriving DecidableEq

/-- The class attribute `ATTRS` of each table class. -/
def ATTRS : TableKind → List String
  | .employee => ["id", "name", "age", "salary", "department_id"]
  | .department => ["id", "department_name"]
  | .employeeLeave => ["id", "employee_id", "start_date", "end_date"]

/-- A table object: its class (fixing `ATTRS` and the insert/select behaviour),
its in-memory `data` list, and the rows currently held by its durable CSV
store (`FILE_PATH`), modelled as the row list last written by `save`. -/
structure Table where
  kind : TableKind
  data : List Row
  storage : List Row
  deriving DecidableEq

/-- Models `dict(zip(self.ATTRS, data.split(",")))`: positional pairing of schema
columns with comma-separated fields, truncated to the shorter of the two. -/
def makeEntry (kind : TableKind) (data : String) : Row :=
  (ATTRS kind).zip (pySplit ',' data)

/-- Models `EmployeeTable.insert`'s constraint loop: for each existing row with the
same `id`, raise the composite-key error when `department_id` also matches,
otherwise the single-key error; the composite check comes first. -/
def employeeCheck (entry : Row) : List Row → Except DBError Unit
  | [] => .ok ()
  | row :: rest =>
    match rowGet row "id" with
    | .error e => .error e
    | .ok rid =>
      match rowGet entry "id" with
      | .error e => .error e
      | .ok eid =>
        if rid = eid then
          match rowGet row "department_id" with
          | .error e => .error e
          | .ok rdep =>
            match rowGet entry "department_id" with
            | .error e => .error e
            | .ok edep =>
              if rdep = edep then .error .compositeKeyViolation
              else .error .uniqueIdViolation
        else employeeCheck entry rest

/-- Models `DepartmentTable.insert` / `EmployeeLeaveTable.insert` constraint loop:
`id` must be unique. -/
def idCheck (entry : Row) : List Row → Except DBError Unit
  | [] => .ok ()
  | row :: rest =>
    match rowGet row "id" with
    | .error e => .error e
    | .ok rid =>
      match rowGet entry "id" with
      | .error e => .error e
      | .ok eid =>
        if rid = eid then .error .uniqueIdViolation
        else idCheck entry rest

/-- Models `Table.save`: overwrite durable storage with the full in-memory row set. -/
def Table.save (t : Table) : Table :=
  { t with storage := t.data }

/-- The constraint check an insert runs before mutating, per concrete class. -/
def tableCheck (t : Table) (entry : Row) : Except DBError Unit :=
  match t.kind with
  | .employee => employeeCheck entry t.data
  | .department => idCheck entry t.data
  | .employeeLeave => idCheck entry t.data

/-- Models `insert(data)` of the concrete table classes: parse the record, run the
class's constraint check (raising before any mutation), append the entry and
save.  Returns the table state at exit together with the outcome. -/
def Table.insertOp (t : Table) (data : String) : Table × Except DBError Unit :=
  match tableCheck t (makeEntry t.kind data) with
  | .error e => (t, .error e)
  | .ok () =>
    (Table.save { t with data := t.data ++ [makeEntry t.kind data] }, .ok ())

/-- The argument shapes of the per-class `select` methods. -/
inductive SelectArgs where
  | range (low high : Int)
  | byName (name : String)

/-- Models `int(s)` on a stored string. -/
def parseInt (s : String) : Except DBError Int :=
  match pyToInt s with
  | some n => .ok n
  | none => .error (.parseFailure s)

/-- Employee / EmployeeLeave `select(start_id, end_id)`: rows whose parsed
`id` lies in the inclusive range. -/
def rangeSelect (lo hi : Int) : List Row → Except DBError (List Row)
  | [] => .ok []
  | entry :: rest =>
    match rowGet entry "id" with
    | .error e => .error e
    | .ok s =>
      match parseInt s with
      | .error e => .error e
      | .ok n =>
        match rangeSelect lo hi rest with
        | .error e => .error e
        | .ok tail => .ok (if lo ≤ n ∧ n ≤ hi then entry :: tail else tail)

/-- Department `select(department_name)`: rows whose `department_name` equals
the argument exactly. -/
def nameSelect (wanted : String) : List Row → Except DBError (List Row)
  | [] => .ok []
  | entry :: rest =>
    match rowGet entry "department_name" with
    | .error e => .error e
    | .ok v =>
      match nameSelect wanted rest with
      | .error e => .error e
      | .ok tail => .ok (if v = wanted then entry :: tail else tail)

/-- Models `select(*args)` dispatched by concrete class; a call with the wrong
argument shape is a Python `TypeError`. -/
def Table.select (t : Table) (args : SelectArgs) : Except DBError (List Row) :=
  match t.kind, args with
  | .employee, .range lo hi => rangeSelect lo hi t.data
  | .employeeLeave, .range lo hi => rangeSelect lo hi t.data
  | .department, .byName n => nameSelect n t.data
  | _, _ => .error .typeError

/-- The singleton database object: `self.tables`, an insertion-ordered dict
from table name to table object. -/
structure Database where
  tables : List (String × Table)

/-- Models `self.tables.get(name)`. -/
def Database.getTable (db : Database) (name : String) : Option Table :=
  match db.tables.find? (fun p => p.1 == name) with
  | some p => some p.2
  | none => none

/-- Models `register_table(table_name, table)`: dict assignment — update in place
when the name exists, append otherwise. -/
def Database.register_table (db : Database) (name : String) (t : Table) : Database :=
  if (db.tables.find? (fun p => p.1 == name)).isSome then
    { tables := db.tables.map (fun p => if p.1 == name then (name, t) else p) }
  else
    { tables := db.tables ++ [(name, t)] }

/-- Models `Database.insert`: raise `UnknownTable` when the name is absent, otherwise
delegate to the table's insert, propagating its outcome and state change. -/
def Database.insertOp (db : Database) (name data : String) :
    Database × Except DBError Unit :=
  match db.getTable name with
  | none => (db, .error (.unknownTable name))
  | some t =>
    match t.insertOp data with
    | (t2, .ok ()) =>
      ({ tables := db.tables.map (fun p => if p.1 == name then (p.1, t2) else p) },
        .ok ())
    | (_, .error e) => (db, .error e)

/-- Models `Database.select`: `table.select(*args) if table else None`. -/
def Database.select (db : Database) (name : String) (args : SelectArgs) :
    Except DBError (Option (List Row)) :=
  match db.getTable name with
  | none => .ok none
  | some t =>
    match t.select args with
    | .error e => .error e
    | .ok rows => .ok (some rows)

/-- Models `[int(row[column]) for row in rows]`. -/
def columnValues (col : String) : List Row → Except DBError (List Int)
  | [] => .ok []
  | row :: rest =>
    match rowGet row col with
    | .error e => .error e
    | .ok s =>
      match parseInt s with
      | .error e => .error e
      | .ok n =>
        match columnValues col rest with
        | .error e => .error e
        | .ok tail => .ok (n :: tail)

/-- An aggregate call's result: a Python int for COUNT/SUM/MIN/MAX, a Python
float for AVG (modelled as the exact rational value of `sum(x) / len(x)`). -/
inductive AggResult where
  | int (n : Int)
  | float (q : ℚ)
  deriving DecidableEq

/-- Models `len`. -/
def countAgg (xs : List Int) : Except DBError AggResult :=
  .ok (.int xs.length)

/-- Models `sum`. -/
def sumAgg (xs : List Int) : Except DBError AggResult :=
  .ok (.int (xs.foldl (fun a b => a + b) 0))

/-- Models `min`: `ValueError` on an empty sequence. -/
def minAgg : List Int → Except DBError AggResult
  | [] => .error .emptySeq
  | x :: xs => .ok (.int (xs.foldl min x))

/-- Models `max`: `ValueError` on an empty sequence. -/
def maxAgg : List Int → Except DBError AggResult
  | [] => .error .emptySeq
  | x :: xs => .ok (.int (xs.foldl max x))

/-- Models `lambda x: sum(x) / len(x)`: true division, `ZeroDivisionError` when the
list is empty. -/
def avgAgg : List Int → Except DBError AggResult
  | [] => .error .zeroDivision
  | x :: xs =>
    .ok (.float (((((x :: xs).foldl (fun a b => a + b) 0 : ℤ)) : ℚ) /
      (((x :: xs).length : ℕ) : ℚ)))

/-- The `match function_name.upper()` dispatch: the chosen aggregate function,
or `none` for the `case _` branch. -/
def pickAgg (s : String) : Option (List Int → Except DBError AggResult) :=
  if s = "COUNT" then some countAgg
  else if s = "SUM" then some sumAgg
  else if s = "MIN" then some minAgg
  else if s = "MAX" then some maxAgg
  else if s = "AVG" then some avgAgg
  else none

/-- Models `Database.aggregate`: validate table, then column, then function name, then
parse every value of the column as an integer and reduce. -/
def Database.aggregate (db : Database) (name col fname : String) :
    Except DBError AggResult :=
  match db.getTable name with
  | none => .error (.unknownTable name)
  | some table =>
    if col ∈ ATTRS table.kind then
      match pickAgg (pyUpper fname) with
      | none => .error (.unknownFunction fname)
      | some f =>
        match columnValues col table.data with
        | .error e => .error e
        | .ok values => f values
    else .error (.unknownColumn col)

/-- Models `table, attr = line.split(".")`: a `ValueError` unless the split has
exactly two fields. -/
def splitRef (s : String) : Except DBError (String × String) :=
  match pySplit '.' s with
  | [t, a] => .ok (t, a)
  | _ => .error (.badRef s)

/-- The validation loop over `table_objs`: raise `UnknownTable` for the first
listed name that is not registered. -/
def validateTables (db : Database) : List String → Except DBError Unit
  | [] => .ok ()
  | n :: rest =>
    match db.getTable n with
    | none => .error (.unknownTable n)
    | some _ => validateTables db rest

/-- One `"table.column"` reference of `attrs`: split it, check the table is
among the joined tables and the column is in its schema. -/
def checkRef (db : Database) (tables : List String) (s : String) :
    Except DBError (String × String) :=
  match splitRef s with
  | .error e => .error e
  | .ok (t, a) =>
    if t ∈ tables then
      match db.getTable t with
      | none => .error (.attrError t)
      | some tb =>
        if a ∈ ATTRS tb.kind then .ok (t, a)
        else .error (.unknownColumn a)
    else .error (.unknownTable t)

/-- The flattening/validation loop over `attrs`: every reference of every pair
is split and checked; the even-length `join_attrs` list is returned regrouped
two at a time, matching `range(0, len(join_attrs) - 1, 2)`. -/
def validateRefs (db : Database) (tables : List String) :
    List (String × String) →
    Except DBError (List ((String × String) × (String × String)))
  | [] => .ok []
  | (l, r) :: rest =>
    match checkRef db tables l with
    | .error e => .error e
    | .ok p1 =>
      match checkRef db tables r with
      | .error e => .error e
      | .ok p2 =>
        match validateRefs db tables rest with
        | .error e => .error e
        | .ok tail => .ok ((p1, p2) :: tail)

/-- Models `prepare_data`: namespace every key of every row as `"tablename.key"`. -/
def prepare_data (tname : String) (rows : List Row) : List Row :=
  rows.map (fun row => row.map (fun p => (tname ++ "." ++ p.1, p.2)))

/-- The inner loop of `join_two_tables` for a fixed left row:
`row1[key1] == row2[key2]` for each right row, collecting `{**row1, **row2}`
on equality. -/
def joinInner (row1 : Row) (k1 k2 : String) : List Row → Except DBError (List Row)
  | [] => .ok []
  | row2 :: rest =>
    match rowGet row1 k1 with
    | .error e => .error e
    | .ok v1 =>
      match rowGet row2 k2 with
      | .error e => .error e
      | .ok v2 =>
        match joinInner row1 k1 k2 rest with
        | .error e => .error e
        | .ok tail => .ok (if v1 = v2 then dictMerge row1 row2 :: tail else tail)

/-- Models `join_two_tables`: nested-loop equi-join, outer loop over `data1`, inner
loop over `data2`. -/
def join_two_tables (k1 k2 : String) : List Row → List Row → Except DBError (List Row)
  | [], _ => .ok []
  | row1 :: rest, data2 =>
    match joinInner row1 k1 k2 data2 with
    | .error e => .error e
    | .ok here =>
      match join_two_tables k1 k2 rest data2 with
      | .error e => .error e
      | .ok there => .ok (here ++ there)

/-- Models `table_objs[name].data` inside the join loop (the name was validated to be
a key of `table_objs`, whose value is the registered table). -/
def tblData (db : Database) (name : String) : Except DBError (List Row) :=
  match db.getTable name with
  | some tb => .ok tb.data
  | none => .error (.keyError name)

/-- The chained-join loop `for i in range(0, len(join_attrs) - 1, 2)`: the
first pair joins the two named tables' namespaced rows, each later pair joins
the accumulated result against the new right table's namespaced rows. -/
def joinChain (db : Database) :
    List ((String × String) × (String × String)) → Bool → List Row →
    Except DBError (List Row)
  | [], _, result => .ok result
  | ((t1, a1), (t2, a2)) :: rest, isFirst, result =>
    match tblData db t2 with
    | .error e => .error e
    | .ok d2 =>
      let data2 := prepare_data t2 d2
      let step :=
        if isFirst then
          match tblData db t1 with
          | .error e => .error e
          | .ok d1 =>
            join_two_tables (t1 ++ "." ++ a1) (t2 ++ "." ++ a2)
              (prepare_data t1 d1) data2
        else
          join_two_tables (t1 ++ "." ++ a1) (t2 ++ "." ++ a2) result data2
      match step with
      | .error e => .error e
      | .ok res2 => joinChain db rest false res2

/-- Models `Database.join`: validate the table list, validate and flatten the key
pairs, then run the chained nested-loop join starting from `result = []`. -/
def Database.join (db : Database) (tables : List String)
    (attrs : List (String × String)) : Except DBError (List Row) :=
  match validateTables db tables with
  | .error e => .error e
  | .ok () =>
    match validateRefs db tables attrs with
    | .error e => .error e
    | .ok pairs => joinChain db pairs true []

/-- Spec-side description of one equi-join step (from the claim's words): for
each row `a` of the left data in order, for each row `b` of the right data in
order with `a[k1]` equal to `b[k2]`, the merged map `{**a, **b}`. -/
def nestedLoopJoin (k1 k2 : String) : List Row → List Row → List Row
  | [], _ => []
  | a :: rest, data2 =>
    (data2.filter (fun b => rowFind a k1 == rowFind b k2)).map (fun b => dictMerge a b)
      ++ nestedLoopJoin k1 k2 rest data2

/-- The spec invariant for one row, decidably: its key list is exactly the
table's schema. -/
def rowWFb (kind : TableKind) (r : Row) : Bool :=
  r.map Prod.fst == ATTRS kind

/-- The spec invariant for a table, decidably: every in-memory row's key list
is exactly the schema. -/
def Table.WFb (t : Table) : Bool :=
  t.data.all (rowWFb t.kind)

/-- Models `Table.WFb` lifted over an optional lookup result (absent tables are
vacuously well-formed). -/
def optWFb : Option Table → Bool
  | none => true
  | some t => t.WFb

/-- Models `insert` repeated over a list of record texts, keeping the table state. -/
def insertAll (t : Table) : List String → Table
  | [] => t
  | rec :: rest => insertAll (t.insertOp rec).1 rest

/-- The chained-join precondition on the pairs after the first: every later
pair's left table is among the tables already joined. -/
def chainOKb (J : List String) : List ((String × String) × (String × String)) → Bool
  | [] => true
  | ((t1, _), (t2, _)) :: rest => J.contains t1 && chainOKb (t2 :: J) rest

/-- The chained-join precondition for a whole parsed pair list: the first pair
seeds the joined-table set with its own two tables. -/
def chainPre : List ((String × String) × (String × String)) → Bool
  | [] => true
  | ((t1, _), (t2, _)) :: rest => chainOKb [t2, t1] rest

/-- A parsed join-key reference that passed validation: its table is among the
joined tables and its column is in that table's schema. -/
def refOK (db : Database) (tbls : List String) (p : String × String) : Prop :=
  p.1 ∈ tbls ∧ ∃ tb, db.getTable p.1 = some tb ∧ p.2 ∈ ATTRS tb.kind

/-- Every key `"t.a"` with `a` in `t`'s schema is present in a row, for every
table `t` in the name set `J`. -/
def hasKeys (db : Database) (J : List String) (r : Row) : Prop :=
  ∀ t ∈ J, ∀ tb, db.getTable t = some tb →
    ∀ a ∈ ATTRS tb.kind, (rowFind r (t ++ "." ++ a)).isSome

/-- The employees table seeded as in `main.py`. -/
def tEmployees : Table :=
  { kind := .employee,
    data := [makeEntry .employee "1,Alice,30,70000,1",
             makeEntry .employee "2,Bob,29,100000,1"],
    storage := [makeEntry .employee "1,Alice,30,70000,1",
                makeEntry .employee "2,Bob,29,100000,1"] }

/-- The departments table seeded as in `main.py`. -/
def tDepartments : Table :=
  { kind := .department,
    data := [makeEntry .department "1,Engineering"],
    storage := [makeEntry .department "1,Engineering"] }

/-- The employee-leaves table seeded as in `main.py`. -/
def tLeaves : Table :=
  { kind := .employeeLeave,
    data := [makeEntry .employeeLeave "1,1,01.06.2025,01.07.2025"],
    storage := [makeEntry .employeeLeave "1,1,01.06.2025,01.07.2025"] }

/-- The registry with the three tables registered, as in `main.py`. -/
def dbW : Database :=
  { tables := [("employees", tEmployees), ("departments", tDepartments),
               ("employees_leaves", tLeaves)] }

/-! ### Row lookup and merge lemmas -/

theorem rowFind_isSome_iff (r : Row) (k : String) :
    (rowFind r k).isSome ↔ k ∈ r.map Prod.fst := by
  induction r with
  | nil => simp [rowFind]
  | cons p rest ih =>
    obtain ⟨k2, v⟩ := p
    simp only [rowFind, List.map_cons, List.mem_cons]
    by_cases h : k2 = k
    · subst h; simp
    · simp [h, ih, Ne.symm h]

theorem rowGet_eq_ok (r : Row) (k v : String) (h : rowFind r k = some v) :
    rowGet r k = .ok v := by
  simp [rowGet, h]

theorem map_override_fst (b a : Row) :
    (a.map (fun p =>
      match rowFind b p.1 with
      | some v => (p.1, v)
      | none => p)).map Prod.fst = a.map Prod.fst := by
  induction a with
  | nil => rfl
  | cons p rest ih =>
    simp only [List.map_cons, ih]
    congr 1
    cases rowFind b p.1 <;> rfl

theorem dictMerge_fst (a b : Row) :
    (dictMerge a b).map Prod.fst =
      a.map Prod.fst ++
        (b.filter (fun p => (rowFind a p.1).isNone)).map Prod.fst := by
  unfold dictMerge
  rw [List.map_append, map_override_fst]

theorem dictMerge_find_isSome (a b : Row) (k : String)
    (h : (rowFind a k).isSome ∨ (rowFind b k).isSome) :
    (rowFind (dictMerge a b) k).isSome := by
  simp only [rowFind_isSome_iff] at h ⊢
  rw [dictMerge_fst, List.mem_append]
  by_cases ha : k ∈ a.map Prod.fst
  · exact Or.inl ha
  · right
    have hb : k ∈ b.map Prod.fst := by
      rcases h with h | h
      · exact absurd h ha
      · exact h
    obtain ⟨p, hp, hpk⟩ := List.mem_map.mp hb
    have hnone : rowFind a k = none := by
      rw [← Option.not_isSome_iff_eq_none, rowFind_isSome_iff]
      exact ha
    refine List.mem_map.mpr ⟨p, List.mem_filter.mpr ⟨hp, ?_⟩, hpk⟩
    rw [hpk, hnone]
    rfl

theorem prepare_find_isSome (tname c : String) (row : Row)
    (hc : c ∈ row.map Prod.fst) :
    (rowFind (row.map (fun p => (tname ++ "." ++ p.1, p.2)))
      (tname ++ "." ++ c)).isSome := by
  rw [rowFind_isSome_iff, List.map_map]
  obtain ⟨p, hp, hpk⟩ := List.mem_map.mp hc
  exact List.mem_map.mpr ⟨p, hp, by simp [Function.comp, hpk]⟩

/-! ### Equivalence of `join_two_tables` with the spec's nested-loop join -/

theorem joinInner_eq (row1 : Row) (k1 k2 v1 : String)
    (h1 : rowFind row1 k1 = some v1) (data2 : List Row)
    (h2 : ∀ b ∈ data2, (rowFind b k2).isSome) :
    joinInner row1 k1 k2 data2 =
      .ok ((data2.filter (fun b => rowFind row1 k1 == rowFind b k2)).map
        (fun b => dictMerge row1 b)) := by
  induction data2 with
  | nil => rfl
  | cons row2 rest ih =>
    obtain ⟨v2, hv2⟩ := Option.isSome_iff_exists.mp (h2 row2 (by simp))
    have ihr := ih (fun b hb => h2 b (by simp [hb]))
    simp only [joinInner, rowGet_eq_ok row1 k1 v1 h1, rowGet_eq_ok row2 k2 v2 hv2,
      ihr, List.filter_cons, h1, hv2]
    by_cases hv : v1 = v2
    · subst hv
      simp
    · simp [hv]

theorem join_two_tables_eq (k1 k2 : String) (d1 d2 : List Row)
    (h1 : ∀ a ∈ d1, (rowFind a k1).isSome)
    (h2 : ∀ b ∈ d2, (rowFind b k2).isSome) :
    join_two_tables k1 k2 d1 d2 = .ok (nestedLoopJoin k1 k2 d1 d2) := by
  induction d1 with
  | nil => rfl
  | cons a rest ih =>
    obtain ⟨v1, hv1⟩ := Option.isSome_iff_exists.mp (h1 a (by simp))
    have ihr := ih (fun x hx => h1 x (by simp [hx]))
    simp only [join_two_tables, joinInner_eq a k1 k2 v1 hv1 d2 h2, ihr,
      nestedLoopJoin]

theorem nestedLoopJoin_mem (k1 k2 : String) (d1 d2 : List Row) (r : Row)
    (h : r ∈ nestedLoopJoin k1 k2 d1 d2) :
    ∃ a ∈ d1, ∃ b ∈ d2, r = dictMerge a b := by
  induction d1 with
  | nil => simp [nestedLoopJoin] at h
  | cons a rest ih =>
    simp only [nestedLoopJoin] at h
    rcases List.mem_append.mp h with h | h
    · obtain ⟨b, hb, hr⟩ := List.mem_map.mp h
      exact ⟨a, by simp, b, (List.mem_filter.mp hb).1, hr.symm⟩
    · obtain ⟨a2, ha2, b, hb, hr⟩ := ih h
      exact ⟨a2, by simp [ha2], b, hb, hr⟩

/-! ### Validation lemmas -/

theorem validateTables_ok (db : Database) (tbls : List String)
    (h : ∀ n ∈ tbls, (db.getTable n).isSome) :
    validateTables db tbls = .ok () := by
  induction tbls with
  | nil => rfl
  | cons n rest ih =>
    obtain ⟨t, ht⟩ := Option.isSome_iff_exists.mp (h n (by simp))
    simp only [validateTables, ht]
    exact ih (fun m hm => h m (by simp [hm]))

theorem validateTables_absent (db : Database) (tbls : List String) (n : String)
    (hn : n ∈ tbls) (h : db.getTable n = none) :
    ∃ m, db.getTable m = none ∧
      validateTables db tbls = .error (.unknownTable m) := by
  induction tbls with
  | nil => simp at hn
  | cons x rest ih =>
    by_cases hx : (db.getTable x).isSome
    · obtain ⟨t, ht⟩ := Option.isSome_iff_exists.mp hx
      have hnx : n ∈ rest := by
        rcases List.mem_cons.mp hn with h1 | h1
        · subst h1; rw [h] at ht; cases ht
        · exact h1
      obtain ⟨m, hm1, hm2⟩ := ih hnx
      refine ⟨m, hm1, ?_⟩
      simp only [validateTables, ht]
      exact hm2
    · have hx2 : db.getTable x = none := Option.not_isSome_iff_eq_none.mp hx
      exact ⟨x, hx2, by simp only [validateTables, hx2]⟩

theorem checkRef_ok (db : Database) (tbls : List String) (s : String)
    (p : String × String) (h : checkRef db tbls s = .ok p) :
    refOK db tbls p := by
  unfold checkRef at h
  cases hs : splitRef s with
  | error e => simp only [hs] at h; cases h
  | ok q =>
    obtain ⟨t, a⟩ := q
    simp only [hs] at h
    by_cases ht : t ∈ tbls
    · rw [if_pos ht] at h
      cases hg : db.getTable t with
      | none => simp only [hg] at h; cases h
      | some tb =>
        simp only [hg] at h
        by_cases ha : a ∈ ATTRS tb.kind
        · rw [if_pos ha] at h
          cases h
          exact ⟨ht, tb, hg, ha⟩
        · rw [if_neg ha] at h
          cases h
    · rw [if_neg ht] at h
      cases h

theorem validateRefs_ok_mem (db : Database) (tbls : List String)
    (attrs : List (String × String))
    (pairs : List ((String × String) × (String × String)))
    (h : validateRefs db tbls attrs = .ok pairs) :
    ∀ q ∈ pairs, refOK db tbls q.1 ∧ refOK db tbls q.2 := by
  induction attrs generalizing pairs with
  | nil =>
    simp only [validateRefs] at h
    cases h
    simp
  | cons lr rest ih =>
    obtain ⟨l, r⟩ := lr
    simp only [validateRefs] at h
    cases h1 : checkRef db tbls l with
    | error e => simp only [h1] at h; cases h
    | ok p1 =>
      simp only [h1] at h
      cases h2 : checkRef db tbls r with
      | error e => simp only [h2] at h; cases h
      | ok p2 =>
        simp only [h2] at h
        cases h3 : validateRefs db tbls rest with
        | error e => simp only [h3] at h; cases h
        | ok tail =>
          simp only [h3] at h
          cases h
          intro q hq
          rcases List.mem_cons.mp hq with hq | hq
          · subst hq
            exact ⟨checkRef_ok db tbls l p1 h1, checkRef_ok db tbls r p2 h2⟩
          · exact ih tail h3 q hq

/-! ### Well-formedness lemmas -/

theorem WFb_rows (t : Table) (h : t.WFb = true) :
    ∀ r ∈ t.data, r.map Prod.fst = ATTRS t.kind := by
  intro r hr
  have h2 := List.all_eq_true.mp h r hr
  simpa [rowWFb] using h2

theorem prepared_hasKeys (db : Database) (tname : String) (tb : Table)
    (hg : db.getTable tname = some tb) (hwf : tb.WFb = true)
    (r : Row) (hr : r ∈ prepare_data tname tb.data) :
    hasKeys db [tname] r := by
  intro t ht tb2 hg2 a ha
  have ht2 : t = tname := by simpa using ht
  subst ht2
  rw [hg] at hg2
  cases hg2
  obtain ⟨row, hrow, hreq⟩ := List.mem_map.mp hr
  subst hreq
  apply prepare_find_isSome
  rw [WFb_rows tb hwf row hrow]
  exact ha

theorem hasKeys_merge (db : Database) (J : List String) (t2 : String)
    (r1 r2 : Row) (h1 : hasKeys db J r1) (h2 : hasKeys db [t2] r2) :
    hasKeys db (t2 :: J) (dictMerge r1 r2) := by
  intro t ht tb hg a ha
  rcases List.mem_cons.mp ht with ht | ht
  · subst ht
    exact dictMerge_find_isSome r1 r2 _ (Or.inr (h2 t (by simp) tb hg a ha))
  · exact dictMerge_find_isSome r1 r2 _ (Or.inl (h1 t ht tb hg a ha))

/-! ### Safety of the chained join -/

theorem joinChain_ok (db : Database) (tbls : List String)
    (pairs : List ((String × String) × (String × String))) :
    ∀ (J : List String) (result : List Row),
      (∀ q ∈ pairs, refOK db tbls q.1 ∧ refOK db tbls q.2) →
      (∀ n ∈ tbls, optWFb (db.getTable n) = true) →
      chainOKb J pairs = true →
      (∀ r ∈ result, hasKeys db J r) →
      ∃ out, joinChain db pairs false result = .ok out := by
  induction pairs with
  | nil => exact fun J result _ _ _ _ => ⟨result, rfl⟩
  | cons q rest ih =>
    obtain ⟨⟨t1, a1⟩, ⟨t2, a2⟩⟩ := q
    intro J result href hwf hchain hres
    obtain ⟨⟨ht1mem, tb1, hg1, ha1⟩, ⟨ht2mem, tb2, hg2, ha2⟩⟩ :=
      href ((t1, a1), (t2, a2)) (List.mem_cons_self _ _)
    simp only [chainOKb, Bool.and_eq_true] at hchain
    obtain ⟨ht1J, hcrest⟩ := hchain
    have ht1J2 : t1 ∈ J := by simpa using ht1J
    have htd : tblData db t2 = .ok tb2.data := by simp [tblData, hg2]
    have hwf2 : tb2.WFb = true := by
      have hw := hwf t2 ht2mem
      rw [hg2] at hw
      simpa [optWFb] using hw
    have hleft : ∀ r ∈ result, (rowFind r (t1 ++ "." ++ a1)).isSome :=
      fun r hr => hres r hr t1 ht1J2 tb1 hg1 a1 ha1
    have hright : ∀ b ∈ prepare_data t2 tb2.data,
        (rowFind b (t2 ++ "." ++ a2)).isSome :=
      fun b hb => prepared_hasKeys db t2 tb2 hg2 hwf2 b hb t2 (by simp) tb2 hg2 a2 ha2
    have hjoin := join_two_tables_eq (t1 ++ "." ++ a1) (t2 ++ "." ++ a2) result
      (prepare_data t2 tb2.data) hleft hright
    have hnew : ∀ r ∈ nestedLoopJoin (t1 ++ "." ++ a1) (t2 ++ "." ++ a2) result
        (prepare_data t2 tb2.data), hasKeys db (t2 :: J) r := by
      intro r hr
      obtain ⟨a, hamem, b, hbmem, hr2⟩ := nestedLoopJoin_mem _ _ _ _ r hr
      subst hr2
      exact hasKeys_merge db J t2 a b (hres a hamem)
        (prepared_hasKeys db t2 tb2 hg2 hwf2 b hbmem)
    obtain ⟨out, hout⟩ := ih (t2 :: J)
      (nestedLoopJoin (t1 ++ "." ++ a1) (t2 ++ "." ++ a2) result
        (prepare_data t2 tb2.data))
      (fun q2 hq2 => href q2 (by simp [hq2])) hwf hcrest hnew
    refine ⟨out, ?_⟩
    simp only [joinChain, htd, Bool.false_eq_true, if_false, hjoin]
    exact hout

theorem joinChain_first_ok (db : Database) (tbls : List String)
    (pairs : List ((String × String) × (String × String)))
    (href : ∀ q ∈ pairs, refOK db tbls q.1 ∧ refOK db tbls q.2)
    (hwf : ∀ n ∈ tbls, optWFb (db.getTable n) = true)
    (hchain : chainPre pairs = true) :
    ∃ out, joinChain db pairs true [] = .ok out := by
  cases pairs with
  | nil => exact ⟨[], rfl⟩
  | cons q rest =>
    obtain ⟨⟨t1, a1⟩, ⟨t2, a2⟩⟩ := q
    obtain ⟨⟨ht1mem, tb1, hg1, ha1⟩, ⟨ht2mem, tb2, hg2, ha2⟩⟩ :=
      href ((t1, a1), (t2, a2)) (List.mem_cons_self _ _)
    simp only [chainPre] at hchain
    have htd1 : tblData db t1 = .ok tb1.data := by simp [tblData, hg1]
    have htd2 : tblData db t2 = .ok tb2.data := by simp [tblData, hg2]
    have hwf1 : tb1.WFb = true := by
      have hw := hwf t1 ht1mem
      rw [hg1] at hw
      simpa [optWFb] using hw
    have hwf2 : tb2.WFb = true := by
      have hw := hwf t2 ht2mem
      rw [hg2] at hw
      simpa [optWFb] using hw
    have hleft : ∀ a ∈ prepare_data t1 tb1.data,
        (rowFind a (t1 ++ "." ++ a1)).isSome :=
      fun a ha => prepared_hasKeys db t1 tb1 hg1 hwf1 a ha t1 (by simp) tb1 hg1 a1 ha1
    have hright : ∀ b ∈ prepare_data t2 tb2.data,
        (rowFind b (t2 ++ "." ++ a2)).isSome :=
      fun b hb => prepared_hasKeys db t2 tb2 hg2 hwf2 b hb t2 (by simp) tb2 hg2 a2 ha2
    have hjoin := join_two_tables_eq (t1 ++ "." ++ a1) (t2 ++ "." ++ a2)
      (prepare_data t1 tb1.data) (prepare_data t2 tb2.data) hleft hright
    have hnew : ∀ r ∈ nestedLoopJoin (t1 ++ "." ++ a1) (t2 ++ "." ++ a2)
        (prepare_data t1 tb1.data) (prepare_data t2 tb2.data),
        hasKeys db [t2, t1] r := by
      intro r hr
      obtain ⟨a, hamem, b, hbmem, hr2⟩ := nestedLoopJoin_mem _ _ _ _ r hr
      subst hr2
      exact hasKeys_merge db [t1] t2 a b
        (prepared_hasKeys db t1 tb1 hg1 hwf1 a hamem)
        (prepared_hasKeys db t2 tb2 hg2 hwf2 b hbmem)
    obtain ⟨out, hout⟩ := joinChain_ok db tbls rest [t2, t1]
      (nestedLoopJoin (t1 ++ "." ++ a1) (t2 ++ "." ++ a2)
        (prepare_data t1 tb1.data) (prepare_data t2 tb2.data))
      (fun q2 hq2 => href q2 (by simp [hq2])) hwf hchain hnew
    refine ⟨out, ?_⟩
    simp only [joinChain, htd1, htd2, if_true, hjoin]
    exact hout

/-! ### Aggregate lemmas -/

theorem columnValues_ok_length (col : String) (rows : List Row) (vs : List Int)
    (h : columnValues col rows = .ok vs) : vs.length = rows.length := by
  induction rows generalizing vs with
  | nil =>
    simp only [columnValues] at h
    cases h
    rfl
  | cons row rest ih =>
    simp only [columnValues] at h
    cases h1 : rowGet row col with
    | error e => simp only [h1] at h; cases h
    | ok s =>
      simp only [h1] at h
      cases h2 : parseInt s with
      | error e => simp only [h2] at h; cases h
      | ok n =>
        simp only [h2] at h
        cases h3 : columnValues col rest with
        | error e => simp only [h3] at h; cases h
        | ok tail =>
          simp only [h3] at h
          cases h
          simp [ih tail h3]

theorem columnValues_error_shape (col : String) (rows : List Row) (e : DBError)
    (h : columnValues col rows = .error e) :
    (∃ k, e = .keyError k) ∨ (∃ v, e = .parseFailure v) := by
  induction rows with
  | nil => simp only [columnValues] at h; cases h
  | cons row rest ih =>
    simp only [columnValues] at h
    cases h1 : rowGet row col with
    | error e2 =>
      simp only [h1] at h
      cases h
      unfold rowGet at h1
      cases h2 : rowFind row col with
      | some v => rw [h2] at h1; cases h1
      | none =>
        rw [h2] at h1
        cases h1
        exact Or.inl ⟨col, rfl⟩
    | ok s =>
      simp only [h1] at h
      cases h2 : parseInt s with
      | error e2 =>
        simp only [h2] at h
        cases h
        unfold parseInt at h2
        cases h3 : pyToInt s with
        | some n => rw [h3] at h2; cases h2
        | none =>
          rw [h3] at h2
          cases h2
          exact Or.inr ⟨s, rfl⟩
      | ok n =>
        simp only [h2] at h
        cases h3 : columnValues col rest with
        | error e2 =>
          simp only [h3] at h
          cases h
          exact ih h3
        | ok tail => simp only [h3] at h; cases h

theorem foldl_add_eq (xs : List Int) : ∀ a : Int,
    xs.foldl (fun a b => a + b) a = a + xs.sum := by
  induction xs with
  | nil => intro a; simp
  | cons x rest ih =>
    intro a
    simp only [List.foldl_cons, List.sum_cons, ih (a + x)]
    ring

theorem foldl_min_mem (xs : List Int) : ∀ x, xs.foldl min x ∈ x :: xs := by
  induction xs with
  | nil => intro x; simp
  | cons y ys ih =>
    intro x
    simp only [List.foldl_cons]
    rcases List.mem_cons.mp (ih (min x y)) with h | h
    · rcases min_choice x y with hm | hm
      · rw [h, hm]; simp
      · rw [h, hm]; simp
    · simp [List.mem_cons, h]

theorem foldl_min_le (xs : List Int) : ∀ x, ∀ v ∈ x :: xs,
    xs.foldl min x ≤ v := by
  induction xs with
  | nil =>
    intro x v hv
    simp only [List.mem_singleton] at hv
    subst hv
    simp
  | cons y ys ih =>
    intro x v hv
    have hhead := ih (min x y) (min x y) (List.mem_cons_self _ _)
    simp only [List.foldl_cons]
    rcases List.mem_cons.mp hv with hv | hv
    · subst hv
      exact le_trans hhead (min_le_left _ _)
    · rcases List.mem_cons.mp hv with hv | hv
      · subst hv
        exact le_trans hhead (min_le_right _ _)
      · exact ih (min x y) v (by simp [hv])

theorem foldl_max_mem (xs : List Int) : ∀ x, xs.foldl max x ∈ x :: xs := by
  induction xs with
  | nil => intro x; simp
  | cons y ys ih =>
    intro x
    simp only [List.foldl_cons]
    rcases List.mem_cons.mp (ih (max x y)) with h | h
    · rcases max_choice x y with hm | hm
      · rw [h, hm]; simp
      · rw [h, hm]; simp
    · simp [List.mem_cons, h]

theorem le_foldl_max (xs : List Int) : ∀ x, ∀ v ∈ x :: xs,
    v ≤ xs.foldl max x := by
  induction xs with
  | nil =>
    intro x v hv
    simp only [List.mem_singleton] at hv
    subst hv
    simp
  | cons y ys ih =>
    intro x v hv
    have hhead := ih (max x y) (max x y) (List.mem_cons_self _ _)
    simp only [List.foldl_cons]
    rcases List.mem_cons.mp hv with hv | hv
    · subst hv
      exact le_trans (le_max_left _ _) hhead
    · rcases List.mem_cons.mp hv with hv | hv
      · subst hv
        exact le_trans (le_max_right _ _) hhead
      · exact ih (max x y) v (by simp [hv])

/-! ### Insert lemmas -/

theorem makeEntry_fst (kind : TableKind) (rec : String)
    (h : (ATTRS kind).length ≤ (pySplit ',' rec).length) :
    (makeEntry kind rec).map Prod.fst = ATTRS kind :=
  List.map_fst_zip _ _ h

theorem employeeCheck_outcomes (entry : Row) (rows : List Row)
    (hrows : ∀ row ∈ rows,
      (rowFind row "id").isSome ∧ (rowFind row "department_id").isSome)
    (hid : (rowFind entry "id").isSome)
    (hdep : (rowFind entry "department_id").isSome) :
    employeeCheck entry rows = .ok () ∨
      employeeCheck entry rows = .error .compositeKeyViolation ∨
      employeeCheck entry rows = .error .uniqueIdViolation := by
  induction rows with
  | nil => exact Or.inl rfl
  | cons row rest ih =>
    obtain ⟨hr1, hr2⟩ := hrows row (List.mem_cons_self _ _)
    obtain ⟨rid, hrid⟩ := Option.isSome_iff_exists.mp hr1
    obtain ⟨rdep, hrdep⟩ := Option.isSome_iff_exists.mp hr2
    obtain ⟨eid, heid⟩ := Option.isSome_iff_exists.mp hid
    obtain ⟨edep, hedep⟩ := Option.isSome_iff_exists.mp hdep
    simp only [employeeCheck, rowGet_eq_ok row "id" rid hrid,
      rowGet_eq_ok entry "id" eid heid,
      rowGet_eq_ok row "department_id" rdep hrdep,
      rowGet_eq_ok entry "department_id" edep hedep]
    by_cases h1 : rid = eid
    · rw [if_pos h1]
      by_cases h2 : rdep = edep
      · rw [if_pos h2]; exact Or.inr (Or.inl rfl)
      · rw [if_neg h2]; exact Or.inr (Or.inr rfl)
    · rw [if_neg h1]
      exact ih (fun r hr => hrows r (by simp [hr]))

theorem idCheck_outcomes (entry : Row) (rows : List Row)
    (hrows : ∀ row ∈ rows, (rowFind row "id").isSome)
    (hid : (rowFind entry "id").isSome) :
    idCheck entry rows = .ok () ∨
      idCheck entry rows = .error .uniqueIdViolation := by
  induction rows with
  | nil => exact Or.inl rfl
  | cons row rest ih =>
    obtain ⟨rid, hrid⟩ := Option.isSome_iff_exists.mp (hrows row (List.mem_cons_self _ _))
    obtain ⟨eid, heid⟩ := Option.isSome_iff_exists.mp hid
    simp only [idCheck, rowGet_eq_ok row "id" rid hrid,
      rowGet_eq_ok entry "id" eid heid]
    by_cases h1 : rid = eid
    · rw [if_pos h1]; exact Or.inr rfl
    · rw [if_neg h1]
      exact ih (fun r hr => hrows r (by simp [hr]))

theorem employeeCheck_found (entry : Row) (pre post : List Row) (r : Row)
    (v d d2 : String)
    (hpre : ∀ p ∈ pre, ∃ w, rowFind p "id" = some w ∧ w ≠ v)
    (hrid : rowFind r "id" = some v)
    (heid : rowFind entry "id" = some v)
    (hrd : rowFind r "department_id" = some d)
    (hed : rowFind entry "department_id" = some d2) :
    employeeCheck entry (pre ++ r :: post) =
      .error (if d = d2 then .compositeKeyViolation else .uniqueIdViolation) := by
  induction pre with
  | nil =>
    simp only [List.nil_append, employeeCheck, rowGet_eq_ok r "id" v hrid,
      rowGet_eq_ok entry "id" v heid, if_pos rfl,
      rowGet_eq_ok r "department_id" d hrd,
      rowGet_eq_ok entry "department_id" d2 hed]
    by_cases h : d = d2
    · simp [h]
    · simp [h]
  | cons p rest ih =>
    obtain ⟨w, hw, hwv⟩ := hpre p (List.mem_cons_self _ _)
    simp only [List.cons_append, employeeCheck, rowGet_eq_ok p "id" w hw,
      rowGet_eq_ok entry "id" v heid, if_neg hwv]
    exact ih (fun q hq => hpre q (by simp [hq]))

theorem insertOp_error (t : Table) (rec : String) (e : DBError)
    (h : tableCheck t (makeEntry t.kind rec) = .error e) :
    t.insertOp rec = (t, .error e) := by
  simp [Table.insertOp, h]

theorem insertOp_ok (t : Table) (rec : String)
    (h : tableCheck t (makeEntry t.kind rec) = .ok ()) :
    t.insertOp rec =
      ({ kind := t.kind, data := t.data ++ [makeEntry t.kind rec],
         storage := t.data ++ [makeEntry t.kind rec] }, .ok ()) := by
  simp [Table.insertOp, h, Table.save]

theorem insertOp_shape (t : Table) (rec : String) :
    (t.insertOp rec).1 = t ∨
      (t.insertOp rec).1 =
        { kind := t.kind, data := t.data ++ [makeEntry t.kind rec],
          storage := t.data ++ [makeEntry t.kind rec] } := by
  cases h : tableCheck t (makeEntry t.kind rec) with
  | error e => exact Or.inl (by rw [insertOp_error t rec e h])
  | ok u =>
    cases u
    exact Or.inr (by rw [insertOp_ok t rec h])

theorem insertOp_kind (t : Table) (rec : String) :
    ((t.insertOp rec).1).kind = t.kind := by
  rcases insertOp_shape t rec with h | h <;> rw [h]

theorem tableCheck_outcomes (t : Table) (entry : Row)
    (hwf : t.WFb = true)
    (hkeys : entry.map Prod.fst = ATTRS t.kind) :
    tableCheck t entry = .ok () ∨
      tableCheck t entry = .error .compositeKeyViolation ∨
      tableCheck t entry = .error .uniqueIdViolation := by
  have hrows := WFb_rows t hwf
  have hmem : ∀ c ∈ ATTRS t.kind, (rowFind entry c).isSome := by
    intro c hc
    rw [rowFind_isSome_iff, hkeys]
    exact hc
  have hrowmem : ∀ row ∈ t.data, ∀ c ∈ ATTRS t.kind, (rowFind row c).isSome := by
    intro row hrow c hc
    rw [rowFind_isSome_iff, hrows row hrow]
    exact hc
  unfold tableCheck
  cases hk : t.kind with
  | employee =>
    rw [hk] at hmem hrowmem
    rcases employeeCheck_outcomes entry t.data
        (fun row hrow => ⟨hrowmem row hrow "id" (by simp [ATTRS]),
          hrowmem row hrow "department_id" (by simp [ATTRS])⟩)
        (hmem "id" (by simp [ATTRS])) (hmem "department_id" (by simp [ATTRS]))
      with h | h | h
    · exact Or.inl h
    · exact Or.inr (Or.inl h)
    · exact Or.inr (Or.inr h)
  | department =>
    rw [hk] at hmem hrowmem
    rcases idCheck_outcomes entry t.data
        (fun row hrow => hrowmem row hrow "id" (by simp [ATTRS]))
        (hmem "id" (by simp [ATTRS])) with h | h
    · exact Or.inl h
    · exact Or.inr (Or.inr h)
  | employeeLeave =>
    rw [hk] at hmem hrowmem
    rcases idCheck_outcomes entry t.data
        (fun row hrow => hrowmem row hrow "id" (by simp [ATTRS]))
        (hmem "id" (by simp [ATTRS])) with h | h
    · exact Or.inl h
    · exact Or.inr (Or.inr h)

theorem insertOp_WFb (t : Table) (rec : String) (hwf : t.WFb = true)
    (harity : (ATTRS t.kind).length ≤ (pySplit ',' rec).length) :
    ((t.insertOp rec).1).WFb = true := by
  rcases insertOp_shape t rec with h | h
  · rw [h]; exact hwf
  · rw [h]
    unfold Table.WFb at hwf ⊢
    simp only [List.all_append, Bool.and_eq_true]
    refine ⟨hwf, ?_⟩
    simp [rowWFb, makeEntry_fst t.kind rec harity]

theorem insertAll_WFb (recs : List String) : ∀ t : Table, t.WFb = true →
    (∀ rec ∈ recs, (ATTRS t.kind).length ≤ (pySplit ',' rec).length) →
    (insertAll t recs).WFb = true := by
  induction recs with
  | nil => exact fun t hwf _ => hwf
  | cons rec rest ih =>
    intro t hwf harity
    simp only [insertAll]
    apply ih
    · exact insertOp_WFb t rec hwf (harity rec (by simp))
    · intro r hr
      rw [insertOp_kind]
      exact harity r (by simp [hr])

/-! ### Aggregate unfolding lemmas -/

theorem aggregate_eq (db : Database) (name col fname : String) (t : Table)
    (hT : db.getTable name = some t) (hcol : col ∈ ATTRS t.kind)
    (f : List Int → Except DBError AggResult) (hf : pickAgg (pyUpper fname) = some f)
    (vs : List Int) (hvals : columnValues col t.data = .ok vs) :
    db.aggregate name col fname = f vs := by
  unfold Database.aggregate
  simp only [hT, if_pos hcol, hf, hvals]

theorem pickAgg_isSome (s : String)
    (h : s = "COUNT" ∨ s = "SUM" ∨ s = "MIN" ∨ s = "MAX" ∨ s = "AVG") :
    ∃ f, pickAgg s = some f := by
  rcases h with h | h | h | h | h <;> subst h <;> exact ⟨_, rfl⟩

theorem aggFun_no_unknownFunction (s : String)
    (f : List Int → Except DBError AggResult) (hf : pickAgg s = some f)
    (vs : List Int) (g : String) : f vs ≠ .error (.unknownFunction g) := by
  unfold pickAgg at hf
  split_ifs at hf <;> cases hf
  · simp [countAgg]
  · simp [sumAgg]
  · cases vs <;> simp [minAgg]
  · cases vs <;> simp [maxAgg]
  · cases vs <;> simp [avgAgg]

/-! ### Claim theorems -/

/-- C9: for every join call whose table names are all registered, an empty
`key_pairs` sequence makes `join` return the empty sequence, regardless of how
many tables are listed and of their row contents (the result is `.ok []` for
every database satisfying the registration hypothesis, so no table data can
influence it). -/
theorem C9_join_empty_pairs (db : Database) (tbls : List String)
    (h : ∀ n ∈ tbls, (db.getTable n).isSome) :
    db.join tbls [] = .ok [] := by
  unfold Database.join
  simp only [validateTables_ok db tbls h, validateRefs, joinChain]

theorem C9_witness : dbW.join ["employees", "departments"] [] = .ok [] :=
  C9_join_empty_pairs dbW ["employees", "departments"] (by decide)

/-- C7: for every table name absent from the registry, `select` returns the
`None` empty-signal and never an error, whereas `insert`, `aggregate` and
`join` on the same absent name each fail with an `UnknownTable` error. -/
theorem C7_absent_table_asymmetry (db : Database) (name : String)
    (h : db.getTable name = none) :
    (∀ args, db.select name args = .ok none) ∧
    (∀ rec, db.insertOp name rec = (db, .error (.unknownTable name))) ∧
    (∀ col f, db.aggregate name col f = .error (.unknownTable name)) ∧
    (∀ tbls attrs, name ∈ tbls →
      ∃ m, db.getTable m = none ∧
        db.join tbls attrs = .error (.unknownTable m)) := by
  refine ⟨?_, ?_, ?_, ?_⟩
  · intro args
    simp [Database.select, h]
  · intro rec
    simp [Database.insertOp, h]
  · intro col f
    simp [Database.aggregate, h]
  · intro tbls attrs hmem
    obtain ⟨m, hm1, hm2⟩ := validateTables_absent db tbls name hmem h
    refine ⟨m, hm1, ?_⟩
    unfold Database.join
    simp only [hm2]

theorem C7_witness :
    dbW.select "missing" (.range 0 10) = .ok none ∧
    dbW.insertOp "missing" "1,2" = (dbW, .error (.unknownTable "missing")) ∧
    dbW.aggregate "missing" "id" "COUNT" = .error (.unknownTable "missing") ∧
    ∃ m, dbW.getTable m = none ∧
      dbW.join ["missing"] [] = .error (.unknownTable m) := by
  have h := C7_absent_table_asymmetry dbW "missing" (by rfl)
  exact ⟨h.1 _, h.2.1 _, h.2.2.1 "id" "COUNT", h.2.2.2 ["missing"] [] (by simp)⟩

/-- C8: `aggregate` validates in order — unknown table, then unknown column,
then unknown function (the function name compared case-insensitively against
COUNT/SUM/MIN/MAX/AVG) — and the three failures are distinct error kinds; any
case variant of the five names is accepted, i.e. never yields the
unknown-function error. -/
theorem C8_aggregate_error_taxonomy (db : Database) (name col f : String) :
    (db.getTable name = none →
      db.aggregate name col f = .error (.unknownTable name)) ∧
    (∀ t, db.getTable name = some t → col ∉ ATTRS t.kind →
      db.aggregate name col f = .error (.unknownColumn col)) ∧
    (∀ t, db.getTable name = some t → col ∈ ATTRS t.kind →
      pyUpper f ≠ "COUNT" → pyUpper f ≠ "SUM" → pyUpper f ≠ "MIN" →
      pyUpper f ≠ "MAX" → pyUpper f ≠ "AVG" →
      db.aggregate name col f = .error (.unknownFunction f)) ∧
    (pyUpper f = "COUNT" ∨ pyUpper f = "SUM" ∨ pyUpper f = "MIN" ∨
        pyUpper f = "MAX" ∨ pyUpper f = "AVG" →
      ∀ g, db.aggregate name col f ≠ .error (.unknownFunction g)) := by
  refine ⟨?_, ?_, ?_, ?_⟩
  · intro h
    simp [Database.aggregate, h]
  · intro t hT hcol
    simp [Database.aggregate, hT, hcol]
  · intro t hT hcol h1 h2 h3 h4 h5
    have hp : pickAgg (pyUpper f) = none := by
      simp [pickAgg, h1, h2, h3, h4, h5]
    simp [Database.aggregate, hT, hcol, hp]
  · intro h g
    obtain ⟨fn, hfn⟩ := pickAgg_isSome (pyUpper f) h
    cases hT : db.getTable name with
    | none => simp [Database.aggregate, hT]
    | some t =>
      by_cases hcol : col ∈ ATTRS t.kind
      · cases hv : columnValues col t.data with
        | error e =>
          rcases columnValues_error_shape col t.data e hv with ⟨k, hk⟩ | ⟨v, hk⟩ <;>
            subst hk <;> simp [Database.aggregate, hT, hcol, hfn, hv]
        | ok vs =>
          rw [aggregate_eq db name col f t hT hcol fn hfn vs hv]
          exact aggFun_no_unknownFunction (pyUpper f) fn hfn vs g
      · simp [Database.aggregate, hT, hcol]

theorem C8_witness :
    dbW.aggregate "missing" "id" "COUNT" = .error (.unknownTable "missing") ∧
    dbW.aggregate "employees" "height" "COUNT" = .error (.unknownColumn "height") ∧
    dbW.aggregate "employees" "id" "median" = .error (.unknownFunction "median") ∧
    dbW.aggregate "employees" "id" "cOuNt" ≠
      .error (.unknownFunction "cOuNt") := by
  refine ⟨?_, ?_, ?_, ?_⟩
  · exact (C8_aggregate_error_taxonomy dbW "missing" "id" "COUNT").1 (by rfl)
  · exact (C8_aggregate_error_taxonomy dbW "employees" "height" "COUNT").2.1
      tEmployees (by rfl) (by decide)
  · exact (C8_aggregate_error_taxonomy dbW "employees" "id" "median").2.2.1
      tEmployees (by rfl) (by decide) (by decide) (by decide) (by decide)
      (by decide) (by decide)
  · exact (C8_aggregate_error_taxonomy dbW "employees" "id" "cOuNt").2.2.2
      (Or.inl (by rfl)) "cOuNt"

/-- C2 counterexample: COUNT does not ignore the column's content — the code
parses every value of the column as an integer before applying `len`, so
COUNT over the `name` column of the seeded employees table raises the
numeric-parse `ValueError` on "Alice" instead of returning the row count. -/
theorem C2_count_parse_counterexample :
    dbW.aggregate "employees" "name" "COUNT" = .error (.parseFailure "Alice") := by
  rfl

/-- C2 (amended): for every registered table and schema column, `aggregate`
with COUNT returns the number of rows provided every value stored in that
column parses as an integer. -/
theorem C2_count_counts_rows_amended (db : Database) (name col : String)
    (t : Table) (vs : List Int)
    (hT : db.getTable name = some t) (hcol : col ∈ ATTRS t.kind)
    (hvals : columnValues col t.data = .ok vs) :
    db.aggregate name col "COUNT" = .ok (.int t.data.length) := by
  rw [aggregate_eq db name col "COUNT" t hT hcol countAgg rfl vs hvals]
  simp [countAgg, columnValues_ok_length col t.data vs hvals]

theorem C2_witness :
    dbW.aggregate "employees" "id" "COUNT" = .ok (.int 2) :=
  C2_count_counts_rows_amended dbW "employees" "id" tEmployees [1, 2]
    (by rfl) (by decide) (by rfl)

/-- C3: inserting an employee record whose `id` equals an existing row's `id`
fails; the error is the composite-key variant when the new record's
`department_id` equals that row's `department_id` and the distinct single-key
variant otherwise — the composite check runs first, making the two
distinguishable. -/
theorem C3_employee_duplicate_id (t : Table) (rec : String) (pre post : List Row)
    (r : Row) (v d d2 : String)
    (hk : t.kind = .employee)
    (hdata : t.data = pre ++ r :: post)
    (hpre : ∀ p ∈ pre, ∃ w, rowFind p "id" = some w ∧ w ≠ v)
    (hrid : rowFind r "id" = some v)
    (heid : rowFind (makeEntry .employee rec) "id" = some v)
    (hrd : rowFind r "department_id" = some d)
    (hed : rowFind (makeEntry .employee rec) "department_id" = some d2) :
    t.insertOp rec =
      (t, .error (if d = d2 then .compositeKeyViolation
                  else .uniqueIdViolation)) := by
  have hcheck : tableCheck t (makeEntry t.kind rec) =
      .error (if d = d2 then .compositeKeyViolation else .uniqueIdViolation) := by
    unfold tableCheck
    rw [hk, hdata]
    exact employeeCheck_found (makeEntry .employee rec) pre post r v d d2
      hpre hrid heid hrd hed
  exact insertOp_error t rec _ hcheck

theorem C3_witness :
    tEmployees.insertOp "1,Eve,40,50000,1" =
      (tEmployees, .error .compositeKeyViolation) ∧
    tEmployees.insertOp "1,Eve,40,50000,2" =
      (tEmployees, .error .uniqueIdViolation) := by
  constructor
  · exact C3_employee_duplicate_id tEmployees "1,Eve,40,50000,1" []
      [makeEntry .employee "2,Bob,29,100000,1"]
      (makeEntry .employee "1,Alice,30,70000,1") "1" "1" "1"
      rfl rfl (by simp) rfl rfl rfl rfl
  · exact C3_employee_duplicate_id tEmployees "1,Eve,40,50000,2" []
      [makeEntry .employee "2,Bob,29,100000,1"]
      (makeEntry .employee "1,Alice,30,70000,1") "1" "1" "2"
      rfl rfl (by simp) rfl rfl rfl rfl

theorem rowGet_ok_inv (r : Row) (k v : String) (h : rowGet r k = .ok v) :
    rowFind r k = some v := by
  unfold rowGet at h
  cases hf : rowFind r k with
  | some w =>
    simp only [hf] at h
    cases h
    rfl
  | none => simp only [hf] at h; cases h

theorem employeeCheck_ok_ne (entry : Row) (rows : List Row)
    (h : employeeCheck entry rows = .ok ()) :
    ∀ row ∈ rows, rowFind row "id" ≠ rowFind entry "id" := by
  induction rows with
  | nil => simp
  | cons row rest ih =>
    simp only [employeeCheck] at h
    cases h1 : rowGet row "id" with
    | error e => simp only [h1] at h; cases h
    | ok rid =>
      simp only [h1] at h
      cases h2 : rowGet entry "id" with
      | error e => simp only [h2] at h; cases h
      | ok eid =>
        simp only [h2] at h
        by_cases heq : rid = eid
        · rw [if_pos heq] at h
          cases h3 : rowGet row "department_id" with
          | error e => simp only [h3] at h; cases h
          | ok rdep =>
            simp only [h3] at h
            cases h4 : rowGet entry "department_id" with
            | error e => simp only [h4] at h; cases h
            | ok edep =>
              simp only [h4] at h
              by_cases h5 : rdep = edep
              · rw [if_pos h5] at h; cases h
              · rw [if_neg h5] at h; cases h
        · rw [if_neg heq] at h
          intro r hr
          rcases List.mem_cons.mp hr with hr | hr
          · rw [hr, rowGet_ok_inv row "id" rid h1, rowGet_ok_inv entry "id" eid h2]
            intro hc
            injection hc with hc
            exact heq hc
          · exact ih h r hr

theorem idCheck_ok_ne (entry : Row) (rows : List Row)
    (h : idCheck entry rows = .ok ()) :
    ∀ row ∈ rows, rowFind row "id" ≠ rowFind entry "id" := by
  induction rows with
  | nil => simp
  | cons row rest ih =>
    simp only [idCheck] at h
    cases h1 : rowGet row "id" with
    | error e => simp only [h1] at h; cases h
    | ok rid =>
      simp only [h1] at h
      cases h2 : rowGet entry "id" with
      | error e => simp only [h2] at h; cases h
      | ok eid =>
        simp only [h2] at h
        by_cases heq : rid = eid
        · rw [if_pos heq] at h; cases h
        · rw [if_neg heq] at h
          intro r hr
          rcases List.mem_cons.mp hr with hr | hr
          · rw [hr, rowGet_ok_inv row "id" rid h1, rowGet_ok_inv entry "id" eid h2]
            intro hc
            injection hc with hc
            exact heq hc
          · exact ih h r hr

theorem tableCheck_ok_ne (t : Table) (entry : Row)
    (h : tableCheck t entry = .ok ()) :
    ∀ row ∈ t.data, rowFind row "id" ≠ rowFind entry "id" := by
  unfold tableCheck at h
  cases hk : t.kind with
  | employee =>
    rw [hk] at h
    exact employeeCheck_ok_ne entry t.data h
  | department =>
    rw [hk] at h
    exact idCheck_ok_ne entry t.data h
  | employeeLeave =>
    rw [hk] at h
    exact idCheck_ok_ne entry t.data h

theorem tableCheck_error_of_dup (t : Table) (entry : Row)
    (hwf : t.WFb = true) (hkeys : entry.map Prod.fst = ATTRS t.kind)
    (hdup : ∃ row ∈ t.data, rowFind row "id" = rowFind entry "id") :
    ∃ e, (e = DBError.compositeKeyViolation ∨ e = DBError.uniqueIdViolation) ∧
      tableCheck t entry = .error e := by
  rcases tableCheck_outcomes t entry hwf hkeys with h | h | h
  · obtain ⟨row, hrow, heq⟩ := hdup
    exact absurd heq (tableCheck_ok_ne t entry h row hrow)
  · exact ⟨_, Or.inl rfl, h⟩
  · exact ⟨_, Or.inr rfl, h⟩

theorem employeeCheck_ok_of_ne (entry : Row) (rows : List Row)
    (hrows : ∀ row ∈ rows, (rowFind row "id").isSome)
    (hid : (rowFind entry "id").isSome)
    (hne : ∀ row ∈ rows, rowFind row "id" ≠ rowFind entry "id") :
    employeeCheck entry rows = .ok () := by
  induction rows with
  | nil => rfl
  | cons row rest ih =>
    obtain ⟨rid, hrid⟩ :=
      Option.isSome_iff_exists.mp (hrows row (List.mem_cons_self _ _))
    obtain ⟨eid, heid⟩ := Option.isSome_iff_exists.mp hid
    have hne1 : rid ≠ eid := by
      intro hc
      exact hne row (List.mem_cons_self _ _) (by rw [hrid, heid, hc])
    simp only [employeeCheck, rowGet_eq_ok row "id" rid hrid,
      rowGet_eq_ok entry "id" eid heid, if_neg hne1]
    exact ih (fun r hr => hrows r (by simp [hr])) (fun r hr => hne r (by simp [hr]))

theorem idCheck_ok_of_ne (entry : Row) (rows : List Row)
    (hrows : ∀ row ∈ rows, (rowFind row "id").isSome)
    (hid : (rowFind entry "id").isSome)
    (hne : ∀ row ∈ rows, rowFind row "id" ≠ rowFind entry "id") :
    idCheck entry rows = .ok () := by
  induction rows with
  | nil => rfl
  | cons row rest ih =>
    obtain ⟨rid, hrid⟩ :=
      Option.isSome_iff_exists.mp (hrows row (List.mem_cons_self _ _))
    obtain ⟨eid, heid⟩ := Option.isSome_iff_exists.mp hid
    have hne1 : rid ≠ eid := by
      intro hc
      exact hne row (List.mem_cons_self _ _) (by rw [hrid, heid, hc])
    simp only [idCheck, rowGet_eq_ok row "id" rid hrid,
      rowGet_eq_ok entry "id" eid heid, if_neg hne1]
    exact ih (fun r hr => hrows r (by simp [hr])) (fun r hr => hne r (by simp [hr]))

theorem tableCheck_ok_of_ne (t : Table) (entry : Row)
    (hwf : t.WFb = true) (hkeys : entry.map Prod.fst = ATTRS t.kind)
    (hne : ∀ row ∈ t.data, rowFind row "id" ≠ rowFind entry "id") :
    tableCheck t entry = .ok () := by
  have hrows := WFb_rows t hwf
  have hid : (rowFind entry "id").isSome := by
    rw [rowFind_isSome_iff, hkeys]
    cases t.kind <;> simp [ATTRS]
  have hrowsome : ∀ row ∈ t.data, (rowFind row "id").isSome := by
    intro row hrow
    rw [rowFind_isSome_iff, hrows row hrow]
    cases t.kind <;> simp [ATTRS]
  unfold tableCheck
  cases hk : t.kind with
  | employee => exact employeeCheck_ok_of_ne entry t.data hrowsome hid hne
  | department => exact idCheck_ok_of_ne entry t.data hrowsome hid hne
  | employeeLeave => exact idCheck_ok_of_ne entry t.data hrowsome hid hne

/-- C4: for every table kind, on a well-formed table with a full-arity
record: an insert whose record shares its `id` value with an existing row —
exactly the condition under which some uniqueness constraint of the kind is
violated, since an Employee composite `(id, department_id)` duplicate also
duplicates `id` — fails with one of the two `ConstraintViolation` variants
and leaves the in-memory rows and the durable storage completely unchanged;
an insert with no such duplicate fully succeeds, appending the parsed row
and persisting it; and unconditionally the operation either fails with a
`ConstraintViolation` and no mutation or fully succeeds — no partial state. -/
theorem C4_insert_atomic (t : Table) (rec : String) (hwf : t.WFb = true)
    (harity : (ATTRS t.kind).length ≤ (pySplit ',' rec).length) :
    ((∃ row ∈ t.data, rowFind row "id" = rowFind (makeEntry t.kind rec) "id") →
      ∃ e, (e = DBError.compositeKeyViolation ∨ e = DBError.uniqueIdViolation) ∧
        t.insertOp rec = (t, .error e)) ∧
    ((∀ row ∈ t.data, rowFind row "id" ≠ rowFind (makeEntry t.kind rec) "id") →
      t.insertOp rec =
        ({ kind := t.kind, data := t.data ++ [makeEntry t.kind rec],
           storage := t.data ++ [makeEntry t.kind rec] }, .ok ())) ∧
    ((∃ e, (e = DBError.compositeKeyViolation ∨ e = DBError.uniqueIdViolation) ∧
        t.insertOp rec = (t, .error e)) ∨
      t.insertOp rec =
        ({ kind := t.kind, data := t.data ++ [makeEntry t.kind rec],
           storage := t.data ++ [makeEntry t.kind rec] }, .ok ())) := by
  have hkeys := makeEntry_fst t.kind rec harity
  refine ⟨?_, ?_, ?_⟩
  · intro hdup
    obtain ⟨e, he, hc⟩ :=
      tableCheck_error_of_dup t (makeEntry t.kind rec) hwf hkeys hdup
    exact ⟨e, he, insertOp_error t rec e hc⟩
  · intro hne
    exact insertOp_ok t rec (tableCheck_ok_of_ne t (makeEntry t.kind rec) hwf hkeys hne)
  · rcases tableCheck_outcomes t (makeEntry t.kind rec) hwf hkeys with h | h | h
    · exact Or.inr (insertOp_ok t rec h)
    · exact Or.inl ⟨_, Or.inl rfl, insertOp_error t rec _ h⟩
    · exact Or.inl ⟨_, Or.inr rfl, insertOp_error t rec _ h⟩

theorem C4_witness :
    (∃ e, (e = DBError.compositeKeyViolation ∨ e = DBError.uniqueIdViolation) ∧
      tDepartments.insertOp "1,Engineering" = (tDepartments, .error e)) ∧
    tDepartments.insertOp "2,Sales" =
      ({ kind := tDepartments.kind,
         data := tDepartments.data ++ [makeEntry tDepartments.kind "2,Sales"],
         storage := tDepartments.data ++
           [makeEntry tDepartments.kind "2,Sales"] }, .ok ()) := by
  constructor
  · exact (C4_insert_atomic tDepartments "1,Engineering" (by decide) (by decide)).1
      (by decide)
  · exact (C4_insert_atomic tDepartments "2,Sales" (by decide) (by decide)).2.1
      (by decide)

/-- C5: with every value of the column parsing as an integer, SUM is the
integer sum of the parsed values; on a nonempty table MIN and MAX are the
integer extrema (a member of the values below resp. above all of them) and
AVG is sum divided by count as a (rational-valued) float; on an empty table
COUNT returns 0 and SUM returns 0. -/
theorem C5_numeric_aggregates (db : Database) (name col : String) (t : Table)
    (vs : List Int)
    (hT : db.getTable name = some t) (hcol : col ∈ ATTRS t.kind)
    (hvals : columnValues col t.data = .ok vs) :
    db.aggregate name col "SUM" = .ok (.int vs.sum) ∧
    (t.data ≠ [] →
      (∃ m, db.aggregate name col "MIN" = .ok (.int m) ∧ m ∈ vs ∧
        ∀ v ∈ vs, m ≤ v) ∧
      (∃ m, db.aggregate name col "MAX" = .ok (.int m) ∧ m ∈ vs ∧
        ∀ v ∈ vs, v ≤ m) ∧
      db.aggregate name col "AVG" =
        .ok (.float ((vs.sum : ℚ) / (vs.length : ℚ)))) ∧
    (t.data = [] →
      db.aggregate name col "COUNT" = .ok (.int 0) ∧
      db.aggregate name col "SUM" = .ok (.int 0)) := by
  have hlen := columnValues_ok_length col t.data vs hvals
  have hsum : db.aggregate name col "SUM" = .ok (.int vs.sum) := by
    rw [aggregate_eq db name col "SUM" t hT hcol sumAgg rfl vs hvals]
    simp [sumAgg, foldl_add_eq]
  refine ⟨hsum, ?_, ?_⟩
  · intro hne
    have hvs : vs ≠ [] := by
      intro hnil
      subst hnil
      exact hne (List.length_eq_zero.mp (by simpa using hlen.symm))
    cases vs with
    | nil => exact absurd rfl hvs
    | cons x xs =>
      refine ⟨⟨xs.foldl min x, ?_, ?_, ?_⟩, ⟨xs.foldl max x, ?_, ?_, ?_⟩, ?_⟩
      · rw [aggregate_eq db name col "MIN" t hT hcol minAgg rfl _ hvals]
        rfl
      · exact foldl_min_mem xs x
      · exact foldl_min_le xs x
      · rw [aggregate_eq db name col "MAX" t hT hcol maxAgg rfl _ hvals]
        rfl
      · exact foldl_max_mem xs x
      · exact le_foldl_max xs x
      · rw [aggregate_eq db name col "AVG" t hT hcol avgAgg rfl _ hvals]
        simp [avgAgg, foldl_add_eq]
  · intro hempty
    have hvals2 := hvals
    rw [hempty] at hvals2
    simp only [columnValues] at hvals2
    injection hvals2 with h2
    subst h2
    constructor
    · rw [aggregate_eq db name col "COUNT" t hT hcol countAgg rfl _ hvals]
      rfl
    · simpa using hsum

theorem C5_witness :
    dbW.aggregate "employees" "salary" "SUM" =
      .ok (.int ([70000, 100000] : List Int).sum) ∧
    (tEmployees.data ≠ [] →
      (∃ m, dbW.aggregate "employees" "salary" "MIN" = .ok (.int m) ∧
        m ∈ ([70000, 100000] : List Int) ∧
        ∀ v ∈ ([70000, 100000] : List Int), m ≤ v) ∧
      (∃ m, dbW.aggregate "employees" "salary" "MAX" = .ok (.int m) ∧
        m ∈ ([70000, 100000] : List Int) ∧
        ∀ v ∈ ([70000, 100000] : List Int), v ≤ m) ∧
      dbW.aggregate "employees" "salary" "AVG" =
        .ok (.float ((([70000, 100000] : List Int).sum : ℚ) /
          (([70000, 100000] : List Int).length : ℚ)))) ∧
    (tEmployees.data = [] →
      dbW.aggregate "employees" "salary" "COUNT" = .ok (.int 0) ∧
      dbW.aggregate "employees" "salary" "SUM" = .ok (.int 0)) :=
  C5_numeric_aggregates dbW "employees" "salary" tEmployees [70000, 100000]
    (by rfl) (by decide) (by rfl)

/-- C6 counterexample: a record text with fewer comma-separated fields than
schema columns is accepted by insert (`dict(zip(...))` silently truncates),
producing a stored row whose key set is a strict subset of the schema — the
claimed invariant fails for arbitrary record texts. -/
theorem C6_short_record_counterexample :
    (Table.insertOp { kind := .department, data := [], storage := [] } "1").2 =
      .ok () ∧
    (Table.insertOp { kind := .department, data := [], storage := [] } "1").1.data =
      [[("id", "1")]] ∧
    rowWFb .department [("id", "1")] = false := by
  exact ⟨rfl, rfl, rfl⟩

/-- C6 (amended): after any sequence of inserts whose record texts each carry
at least as many comma-separated fields as the schema has columns, every row
of a well-formed table still has key list exactly the schema; a shorter
record instead produces a row missing the trailing schema columns. -/
theorem C6_schema_invariant_amended (t : Table) (recs : List String)
    (hwf : t.WFb = true)
    (harity : ∀ rec ∈ recs, (ATTRS t.kind).length ≤ (pySplit ',' rec).length) :
    (insertAll t recs).WFb = true :=
  insertAll_WFb recs t hwf harity

theorem C6_witness :
    (insertAll { kind := .employee, data := [], storage := [] }
      ["1,Alice,30,70000,1", "2,Bob,29,100000,1"]).WFb = true :=
  C6_schema_invariant_amended { kind := .employee, data := [], storage := [] }
    ["1,Alice,30,70000,1", "2,Bob,29,100000,1"] (by rfl) (by decide)

/-- C1: for two registered, well-formed tables and schema columns `c1`, `c2`,
`join([A, B], [("A.c1", "B.c2")])` returns exactly the `{**a, **b}` merges of
the namespaced rows for each pair with equal key strings, in outer-loop order
over `A`'s rows and inner-loop order over `B`'s rows (so the empty sequence,
never an error, when nothing matches). -/
theorem C1_join_refines_nested_loop (db : Database) (A B c1 c2 : String)
    (tA tB : Table)
    (hA : db.getTable A = some tA) (hB : db.getTable B = some tB)
    (hwfA : tA.WFb = true) (hwfB : tB.WFb = true)
    (hc1 : c1 ∈ ATTRS tA.kind) (hc2 : c2 ∈ ATTRS tB.kind)
    (hs1 : splitRef (A ++ "." ++ c1) = .ok (A, c1))
    (hs2 : splitRef (B ++ "." ++ c2) = .ok (B, c2)) :
    db.join [A, B] [(A ++ "." ++ c1, B ++ "." ++ c2)] =
      .ok (nestedLoopJoin (A ++ "." ++ c1) (B ++ "." ++ c2)
        (prepare_data A tA.data) (prepare_data B tB.data)) := by
  have hvt : validateTables db [A, B] = .ok () := by
    simp only [validateTables, hA, hB]
  have hcr1 : checkRef db [A, B] (A ++ "." ++ c1) = .ok (A, c1) := by
    unfold checkRef
    simp only [hs1, hA]
    rw [if_pos (show A ∈ [A, B] by simp), if_pos hc1]
  have hcr2 : checkRef db [A, B] (B ++ "." ++ c2) = .ok (B, c2) := by
    unfold checkRef
    simp only [hs2, hB]
    rw [if_pos (show B ∈ [A, B] by simp), if_pos hc2]
  have hvr : validateRefs db [A, B] [(A ++ "." ++ c1, B ++ "." ++ c2)] =
      .ok [((A, c1), (B, c2))] := by
    simp only [validateRefs, hcr1, hcr2]
  have hleft : ∀ a ∈ prepare_data A tA.data,
      (rowFind a (A ++ "." ++ c1)).isSome := by
    intro a ha
    obtain ⟨row, hrow, hreq⟩ := List.mem_map.mp ha
    subst hreq
    apply prepare_find_isSome
    rw [WFb_rows tA hwfA row hrow]
    exact hc1
  have hright : ∀ b ∈ prepare_data B tB.data,
      (rowFind b (B ++ "." ++ c2)).isSome := by
    intro b hb
    obtain ⟨row, hrow, hreq⟩ := List.mem_map.mp hb
    subst hreq
    apply prepare_find_isSome
    rw [WFb_rows tB hwfB row hrow]
    exact hc2
  have hjoin := join_two_tables_eq (A ++ "." ++ c1) (B ++ "." ++ c2)
    (prepare_data A tA.data) (prepare_data B tB.data) hleft hright
  unfold Database.join
  simp only [hvt, hvr, joinChain, tblData, hA, hB, if_true, hjoin]

theorem C1_witness :
    dbW.join ["employees", "departments"]
        [("employees" ++ "." ++ "department_id", "departments" ++ "." ++ "id")] =
      .ok (nestedLoopJoin ("employees" ++ "." ++ "department_id")
        ("departments" ++ "." ++ "id")
        (prepare_data "employees" tEmployees.data)
        (prepare_data "departments" tDepartments.data)) :=
  C1_join_refines_nested_loop dbW "employees" "departments" "department_id" "id"
    tEmployees tDepartments (by rfl) (by rfl) (by decide) (by decide)
    (by decide) (by decide) (by rfl) (by rfl)

/-- C10: in a chained join, the lookup of a later pair's LEFT key in the
accumulated result is unguarded; whenever the eager validation passes, all
joined tables are well-formed and every pair after the first names as left
table either one of the first pair's tables or a later pair's already-joined
right table, the join completes without the missing-key failure — while for
the concrete seeded registry an input outside this precondition passes
validation yet fails mid-computation with a `KeyError` that is none of the
spec's error kinds. -/
theorem C10_chained_left_lookup (db : Database) (tbls : List String)
    (attrs : List (String × String))
    (pairs : List ((String × String) × (String × String)))
    (hv : validateTables db tbls = .ok ())
    (hr : validateRefs db tbls attrs = .ok pairs)
    (hwf : ∀ n ∈ tbls, optWFb (db.getTable n) = true)
    (hchain : chainPre pairs = true) :
    (∃ out, db.join tbls attrs = .ok out) ∧
    dbW.join ["employees", "departments", "employees_leaves"]
        [("employees.department_id", "departments.id"),
         ("employees_leaves.employee_id", "departments.id")] =
      .error (.keyError "employees_leaves.employee_id") := by
  constructor
  · obtain ⟨out, hout⟩ := joinChain_first_ok db tbls pairs
      (validateRefs_ok_mem db tbls attrs pairs hr) hwf hchain
    refine ⟨out, ?_⟩
    unfold Database.join
    simp only [hv, hr]
    exact hout
  · rfl

theorem C10_witness :
    ((∃ out, dbW.join ["employees", "departments", "employees_leaves"]
        [("employees.department_id", "departments.id"),
         ("employees.id", "employees_leaves.employee_id")] = .ok out) ∧
      dbW.join ["employees", "departments", "employees_leaves"]
          [("employees.department_id", "departments.id"),
           ("employees_leaves.employee_id", "departments.id")] =
        .error (.keyError "employees_leaves.employee_id")) :=
  C10_chained_left_lookup dbW ["employees", "departments", "employees_leaves"]
    [("employees.department_id", "departments.id"),
     ("employees.id", "employees_leaves.employee_id")]
    [(("employees", "department_id"), ("departments", "id")),
     (("employees", "id"), ("employees_leaves", "employee_id"))]
    (by rfl) (by rfl) (by decide) (by rfl)

end Lab3
